import Mathlib

/-!
Shallow embedding of the `spec.py` data-validation library: the two-variant
result type `Validated` (`Valid` / `Invalid`) with its monadic/applicative
operations, and the specification variants (`Predicate`, `Member`, `Type`,
`All`, `Chain`, `Alt`, `Keys`, `Key`) with their `conform` / `validate`
contract.

Python values are modelled by the inductive `Value` (integers, strings,
booleans, pairs/tuples, lists, string-keyed mappings).  Operations that can
raise a Python exception (attribute access `value.keys()`, subscription
`value[key]`, the `in` operator) return `Except PyFault`; the specification
operations `conform` and `validate` are therefore `Except`-valued, an `error`
outcome standing for a raised Python exception.
-/

set_option autoImplicit false

namespace SpecPy

/-- `prelude.const`: return a constant function (external utility, interface
given in the spec). -/
def const {α β : Type _} (x : α) : β → α := fun _ => x

/-- Modelled from the spec: `prelude.sep_by` lives in the external utility
module `funklib.core.prelude`, whose implementation is not part of this
repository.  The spec describes it as a pure partition of a sequence into two
ordered sequences `(matches, non-matches)` according to a predicate, each
preserving the original relative order. -/
def sep_by {α : Type _} (p : α → Bool) (xs : List α) : List α × List α :=
  (xs.filter p, xs.filter fun x => !p x)

/-- The two-variant result type of `spec.py`: `Valid(payload)` or
`Invalid(payload)` (classes `Valid` / `Invalid`, both 1-tuples holding the
single payload). -/
inductive Validated (ε α : Type _) : Type _ where
  | Valid : α → Validated ε α
  | Invalid : ε → Validated ε α
  deriving Repr, DecidableEq

namespace Validated

variable {ε α β : Type _}

/-- `Validated.verify`: the single dispatch primitive; applies `valid` to the
held payload of a `Valid`, `invalid` to the held payload of an `Invalid`. -/
def verify (self : Validated ε α) {β : Type _} (valid : α → β) (invalid : ε → β) : β :=
  match self with
  | .Valid x => valid x
  | .Invalid e => invalid e

/-- `Validated.is_valid`. -/
def is_valid (self : Validated ε α) : Bool :=
  self.verify (const true) (const false)

/-- `Validated.is_invalid`. -/
def is_invalid (self : Validated ε α) : Bool :=
  self.verify (const false) (const true)

/-- `Validated.then`: `self.verify(f, const(self))`.  On `Invalid(e)` the
source returns `self` itself; in the typed embedding the same `Invalid`
payload is re-wrapped at the result type. -/
def then' (self : Validated ε α) (f : α → Validated ε β) : Validated ε β :=
  self.verify f fun e => .Invalid e

/-- `Validated.map`: `self.verify(lambda x: Valid(f(x)), const(self))`. -/
def map (self : Validated ε α) (f : α → β) : Validated ε β :=
  self.verify (fun x => .Valid (f x)) fun e => .Invalid e

/-- `Validated.catch`: `self.verify(const(self), f)` (`catch` is a Lean
keyword, hence the prime). -/
def catch' (self : Validated ε α) (f : ε → Validated ε α) : Validated ε α :=
  self.verify (fun _ => self) f

/-- `Validated.map_error`: `self.verify(const(self), lambda e: Invalid(f(e)))`. -/
def map_error {φ : Type _} (self : Validated ε α) (f : ε → φ) : Validated φ α :=
  self.verify (fun x => .Valid x) fun e => .Invalid (f e)

/-- `Validated.ap`, exactly as written in the source:

```python
def ap(self, other):
    return self.verify(
        lambda f: other.map(f),
        lambda e: other.verify(
            prelude.const(self),
            lambda e: Invalid(e + e)
        )
    )
```

Note that the inner `lambda e` shadows the outer `e` (the left error payload),
so the combined payload is `e₂ + e₂` where `e₂` is `other`'s payload. -/
def ap [Add ε] (self : Validated ε (α → β)) (other : Validated ε α) : Validated ε β :=
  self.verify
    (fun f => other.map f)
    (fun e => other.verify
      (const (.Invalid e))
      (fun e => .Invalid (e + e)))

/-- `Validated.throw`: on `Valid` return `self`; on `Invalid(e)` raise
`f(e)` (`prelude.throw`), modelled as the `error` side of `Except`. -/
def throw' {φ : Type _} (self : Validated ε α) (f : ε → φ) : Except φ (Validated ε α) :=
  self.verify (fun _ => .ok self) fun e => .error (f e)

/-- `Validated.collect`: partition by `is_valid` with `sep_by`, then, because
the Python code extracts each 1-tuple's single slot with
`operator.itemgetter(0)`, read the payload out of each element of the
partition (every element of `invs` is `Invalid` and every element of `vals`
is `Valid` by construction of `sep_by`, so the typed per-variant extraction
reads exactly the slots the source reads). -/
def collect (validated : List (Validated ε α)) : Validated (List ε) (List α) :=
  let p := sep_by is_valid validated
  let vals := p.1
  let invs := p.2
  if invs.length > 0 then
    .Invalid (invs.filterMap fun r => r.verify (fun _ => none) some)
  else
    .Valid (vals.filterMap fun r => r.verify some (fun _ => none))

/-- `Validated.wrap`. -/
def wrap (valid : Bool) (value : α) : Validated α α :=
  if valid then .Valid value else .Invalid value

/-- `Validated.from_predicate`. -/
def from_predicate (pred : α → Bool) (value : α) : Validated α α :=
  wrap (pred value) value

end Validated

/-! ## The model of Python values and of the exceptions the library can raise -/

/-- Python exceptions that the operations used by `spec.py` can raise:
`KeyError` (subscription with an absent key), `TypeError` (subscription or
`in` on an unsupported type), `AttributeError` (attribute access such as
`value.keys()` on an object without that attribute). -/
inductive PyFault : Type where
  | keyError : PyFault
  | typeError : PyFault
  | attributeError : PyFault
  deriving Repr, DecidableEq

/-- The universe of Python values the embedding ranges over: integers,
strings, booleans, 2-tuples, lists, and string-keyed mappings (a `dict`
rendered as an association list). -/
inductive Value : Type where
  | int : Int → Value
  | str : String → Value
  | bool : Bool → Value
  | pair : Value → Value → Value
  | list : List Value → Value
  | map : List (String × Value) → Value

mutual

/-- Python `==` on `Value` (structural equality). -/
def Value.beq : Value → Value → Bool
  | .int a, .int b => a == b
  | .str a, .str b => a == b
  | .bool a, .bool b => a == b
  | .pair a b, .pair c d => a.beq c && b.beq d
  | .list as, .list bs => Value.beqList as bs
  | .map as, .map bs => Value.beqKVs as bs
  | _, _ => false

/-- Pointwise `==` on lists of values. -/
def Value.beqList : List Value → List Value → Bool
  | [], [] => true
  | x :: xs, y :: ys => x.beq y && Value.beqList xs ys
  | _, _ => false

/-- Pointwise `==` on association lists (mapping equality in the embedding). -/
def Value.beqKVs : List (String × Value) → List (String × Value) → Bool
  | [], [] => true
  | (k, x) :: xs, (l, y) :: ys => k == l && x.beq y && Value.beqKVs xs ys
  | _, _ => false

end

/-- The Python types an embedded `Type` spec can test with `isinstance`. -/
inductive PyType : Type where
  | int : PyType
  | str : PyType
  | bool : PyType
  | tuple : PyType
  | list : PyType
  | dict : PyType
  deriving Repr, DecidableEq

/-- Python `isinstance(v, t)` restricted to the embedded universe. -/
def Value.isInstance : Value → PyType → Bool
  | .int _, .int => true
  | .str _, .str => true
  | .bool _, .bool => true
  | .bool _, .int => true
  | .pair _ _, .tuple => true
  | .list _, .list => true
  | .map _, .dict => true
  | _, _ => false

/-- First-match lookup in an association list (Python `dict` subscription,
minus the exception). -/
def lookupKV : List (String × Value) → String → Option Value
  | [], _ => none
  | (k, x) :: rest, key => if k == key then some x else lookupKV rest key

/-- Python `value.keys()`: the key view of a mapping; any other value raises
`AttributeError` (no `keys` attribute). -/
def Value.keysOf : Value → Except PyFault (List String)
  | .map kvs => .ok (kvs.map Prod.fst)
  | _ => .error .attributeError

/-- Python `value[key]` for a string `key`: mapping subscription raises
`KeyError` when the key is absent; subscription of a list, tuple, string,
int or bool with a string key raises `TypeError`. -/
def Value.getItem : Value → String → Except PyFault Value
  | .map kvs, key =>
      match lookupKV kvs key with
      | some x => .ok x
      | none => .error .keyError
  | _, _ => .error .typeError

/-- Python substring test `k in s` for strings. -/
def strContains (s k : String) : Bool :=
  (List.range (s.length + 1)).any fun i => ((s.toList.drop i).take k.length) == k.toList

/-- Python `key in value` for a string `key`: key membership for a mapping,
item membership for a list or tuple, substring test for a string; raises
`TypeError` on int and bool. -/
def Value.containsOp : Value → String → Except PyFault Bool
  | .map kvs, key => .ok (kvs.any fun kv => kv.1 == key)
  | .list xs, key => .ok (xs.any fun x => x.beq (.str key))
  | .pair a b, key => .ok (a.beq (.str key) || b.beq (.str key))
  | .str s, key => .ok (strContains s key)
  | _, _ => .error .typeError

/-! ## The specification variants -/

/-- The specification tree of `spec.py`: `Predicate(pred)`, `Member(values)`
(a `Predicate` whose test is membership in a frozenset built from `values`),
`Type(type)` (a `Predicate` whose test is `isinstance`; `Type` is a Lean
keyword, hence the prime), `All(*specs)` (a `Predicate` whose test is the
conjunction of every child's `validate`), `Alt(*tagged_specs)`,
`Chain(*specs)`, `Keys(required, optional, strict)` and
`Key(key, spec, default)`.  The frozensets of `Member` and `Keys` are
rendered as lists used only through membership tests.  The optional display
`name` attribute is omitted: it never influences `conform` or `validate`. -/
inductive Spec : Type where
  | Predicate : (Value → Bool) → Spec
  | Member : List Value → Spec
  | Type' : PyType → Spec
  | All : List Spec → Spec
  | Alt : List (String × Spec) → Spec
  | Chain : List Spec → Spec
  | Keys : List String → List String → Bool → Spec
  | Key : String → Spec → Value → Spec

/-- `SpecError(value, spec)`: the offending value and the specification that
rejected it (`None` allowed, as in `SpecError(2, None)`). -/
structure SpecError : Type where
  value : Value
  spec : Option Spec

/-- `Keys.validate`:

```python
keys = value.keys()
return self.required <= keys and (
    not self.strict or
    keys <= (self.required | self.optional)
)
```

`value.keys()` raises `AttributeError` on a non-mapping. -/
def keysValidate (required opt : List String) (strict : Bool) (v : Value) :
    Except PyFault Bool :=
  match v.keysOf with
  | .error e => .error e
  | .ok ks =>
      .ok (required.all (fun k => ks.contains k) &&
        (!strict || ks.all fun k => required.contains k || opt.contains k))

mutual

/-- `Spec.conform` for every variant.  `Predicate.conform` (inherited by
`Member`, `Type` and `All`) returns `Valid(value)` when the predicate holds,
else `Invalid(SpecError(value, self))`; `Alt.conform`, `Chain.conform`,
`Keys.conform` and `Key.conform` are translated clause by clause below. -/
def conform : Spec → Value → Except PyFault (Validated SpecError Value)
  | .Predicate p, v =>
      .ok (if p v then .Valid v else .Invalid ⟨v, some (.Predicate p)⟩)
  | .Member vs, v =>
      .ok (if vs.any (fun m => m.beq v) then .Valid v
        else .Invalid ⟨v, some (.Member vs)⟩)
  | .Type' t, v =>
      .ok (if v.isInstance t then .Valid v else .Invalid ⟨v, some (.Type' t)⟩)
  | .All specs, v =>
      match allGo specs v with
      | .error e => .error e
      | .ok b => .ok (if b then .Valid v else .Invalid ⟨v, some (.All specs)⟩)
  | .Alt ts, v => altGo (.Alt ts) ts v
  | .Chain specs, v => chainGo specs (.Valid v)
  | .Keys required opt strict, v =>
      match keysValidate required opt strict v with
      | .error e => .error e
      | .ok b =>
          .ok (if b then .Valid v
            else .Invalid ⟨v, some (.Keys required opt strict)⟩)
  | .Key k s d, v =>
      match v.getItem k with
      | .error .keyError => .ok (.Valid (.pair (.str k) d))
      | .error e => .error e
      | .ok x =>
          match conform s x with
          | .error e => .error e
          | .ok r => .ok (r.map fun y => .pair (.str k) y)

/-- `Spec.validate` for every variant: `bool(pred(value))` for the
predicate-based variants (with `All`'s generated predicate
`all(spec.validate(x) for spec in specs)`), `any(...)` for `Alt`,
`conform(value).is_valid()` for `Chain`, the key-set check for `Keys`, and
`key not in value or spec.validate(value[key])` for `Key`. -/
def validate : Spec → Value → Except PyFault Bool
  | .Predicate p, v => .ok (p v)
  | .Member vs, v => .ok (vs.any fun m => m.beq v)
  | .Type' t, v => .ok (v.isInstance t)
  | .All specs, v => allGo specs v
  | .Alt ts, v => anyGo ts v
  | .Chain specs, v =>
      match conform (.Chain specs) v with
      | .error e => .error e
      | .ok r => .ok r.is_valid
  | .Keys required opt strict, v => keysValidate required opt strict v
  | .Key k s _, v =>
      match v.containsOp k with
      | .error e => .error e
      | .ok b =>
          if b then
            match v.getItem k with
            | .error e => .error e
            | .ok x => validate s x
          else .ok true

/-- The fold of `Chain.conform`:
`ft.reduce(lambda acc, spec: acc.then(spec.conform), self.specs, Valid(value))`,
with `acc.then(spec.conform)` spelled out through `verify` (a fault raised by
a stage's `conform` propagates; an `Invalid` accumulator returns itself and
never runs the stage). -/
def chainGo : List Spec → Validated SpecError Value →
    Except PyFault (Validated SpecError Value)
  | [], acc => .ok acc
  | s :: rest, acc =>
      match acc.verify (fun x => conform s x) (const (.ok acc)) with
      | .error e => .error e
      | .ok acc2 => chainGo rest acc2

/-- The loop of `Alt.conform`: try each `(tag, spec)` in order, mapping a
successful result to the tagged pair; the `for`/`else` falls through to
`Invalid(SpecError(value, self))`, `self` being the whole `Alt` node. -/
def altGo : Spec → List (String × Spec) → Value →
    Except PyFault (Validated SpecError Value)
  | self, [], v => .ok (.Invalid ⟨v, some self⟩)
  | self, (tag, s) :: rest, v =>
      match conform s v with
      | .error e => .error e
      | .ok r =>
          let res := r.map fun x => Value.pair (.str tag) x
          if res.is_valid then .ok res else altGo self rest v

/-- Python `all(spec.validate(x) for spec in specs)`: short-circuits at the
first `False`; a fault raised by a child's `validate` propagates. -/
def allGo : List Spec → Value → Except PyFault Bool
  | [], _ => .ok true
  | s :: rest, v =>
      match validate s v with
      | .error e => .error e
      | .ok b => if b then allGo rest v else .ok false

/-- Python `any(spec.validate(value) for (_, spec) in self.tagged_specs)`
(`Alt.validate`): short-circuits at the first `True`. -/
def anyGo : List (String × Spec) → Value → Except PyFault Bool
  | [], _ => .ok false
  | (_, s) :: rest, v =>
      match validate s v with
      | .error e => .error e
      | .ok b => if b then .ok true else anyGo rest v

end

/-! ## The example specifications used by the spec's testable properties -/

/-- The `is_positive` predicate of the spec's `Chain` example. -/
def is_positive : Value → Bool
  | .int n => 0 < n
  | _ => false

/-- The `is_even` predicate of the spec's `Chain` example. -/
def is_even : Value → Bool
  | .int n => n % 2 == 0
  | _ => false

/-- `Chain(Predicate(is_positive), Predicate(is_even))`. -/
def chainEx : Spec := .Chain [.Predicate is_positive, .Predicate is_even]

/-- `lambda v: v == "a"`. -/
def eq_a : Value → Bool := fun v => v.beq (.str "a")

/-- `lambda v: v == "b"`. -/
def eq_b : Value → Bool := fun v => v.beq (.str "b")

/-- `Alt(("a", Predicate(lambda v: v=="a")), ("b", Predicate(lambda v: v=="b")))`. -/
def altEx : Spec := .Alt [("a", .Predicate eq_a), ("b", .Predicate eq_b)]

/-- The `is_int` predicate of the spec's `Key` example. -/
def is_int : Value → Bool
  | .int _ => true
  | _ => false

/-- `Key("x", Predicate(is_int), default=0)`. -/
def keyEx : Spec := .Key "x" (.Predicate is_int) (.int 0)

/-- `Keys(required={"x"}, optional={"y"}, strict=True)`. -/
def keysEx : Spec := .Keys ["x"] ["y"] true

/-! ## Shared lemmas -/

/-- Mapping the payload of a result does not change its validity. -/
theorem Validated.map_is_valid {ε α β : Type _} (r : Validated ε α) (f : α → β) :
    (r.map f).is_valid = r.is_valid := by
  cases r <;> rfl

/-- An `Invalid` accumulator passes through the whole `Chain` fold
unchanged: every remaining stage is skipped by `then`. -/
theorem chainGo_invalid (specs : List Spec) (e : SpecError) :
    chainGo specs (.Invalid e) = .ok (.Invalid e) := by
  induction specs with
  | nil => simp [chainGo]
  | cons s rest ih => simp [chainGo, Validated.verify, const, ih]

/-! ## Claims about the result algebra -/

/-- C1: the claim states that `Invalid(e1).ap(Invalid(e2))` equals
`Invalid(e1 + e2)`.  The code disagrees: in

```python
lambda e: other.verify(
    prelude.const(self),
    lambda e: Invalid(e + e)
)
```

the inner `lambda e` shadows the outer `e` (the left error payload), so the
combined payload is `e2 + e2` and the left error is dropped.  Evaluated at
the failing input `e1 = 1`, `e2 = 2` (numeric payloads, which support `+`):
the code returns `Invalid(4) = Invalid(2+2)`, not `Invalid(3) = Invalid(1+2)`
as the claim states.  The second half of the claim does hold: against a
`Valid` operand the left `Invalid` is returned unchanged. -/
theorem ap_error_combination_drops_left_payload :
    Validated.ap (Validated.Invalid 1 : Validated Nat (Nat → Nat)) (.Invalid 2)
        = .Invalid (2 + 2) ∧
    Validated.ap (Validated.Invalid 1 : Validated Nat (Nat → Nat)) (.Invalid 2)
        ≠ .Invalid (1 + 2) ∧
    ∀ (e1 y : Nat),
      Validated.ap (Validated.Invalid e1 : Validated Nat (Nat → Nat)) (.Valid y)
        = .Invalid e1 :=
  ⟨rfl, by decide, fun _ _ => rfl⟩

/-- C9: functor laws for `map`: `Valid(x).map(identity) == Valid(x)`,
`Invalid(e).map(f) == Invalid(e)`, and `r.map(f).map(g) == r.map(g ∘ f)`. -/
theorem map_functor_laws :
    (∀ (ε α : Type) (x : α), (Validated.Valid x : Validated ε α).map id = .Valid x) ∧
    (∀ (ε α β : Type) (e : ε) (f : α → β),
      (Validated.Invalid e : Validated ε α).map f = .Invalid e) ∧
    (∀ (ε α β γ : Type) (r : Validated ε α) (f : α → β) (g : β → γ),
      (r.map f).map g = r.map (g ∘ f)) :=
  ⟨fun _ _ _ => rfl, fun _ _ _ _ _ => rfl,
   fun _ _ _ _ r _ _ => by cases r <;> rfl⟩

/-- C10: when the left operand of `ap` is `Valid(f)` and the right operand is
`Invalid(e)`, the result is `Invalid(e)`: the `Valid` branch of `verify`
computes `other.map(f)`, and `map` leaves an `Invalid` unchanged. -/
theorem ap_valid_function_invalid_argument (ε α β : Type) [Add ε]
    (f : α → β) (e : ε) :
    Validated.ap (Validated.Valid f : Validated ε (α → β)) (.Invalid e)
      = .Invalid e :=
  rfl

/-! ## Collect -/

/-- The error payloads of the `Invalid` elements of a sequence, in their
original relative order. -/
def invalid_payloads {ε α : Type _} (rs : List (Validated ε α)) : List ε :=
  rs.filterMap fun r =>
    match r with
    | .Invalid e => some e
    | .Valid _ => none

/-- The payloads of the `Valid` elements of a sequence, in their original
relative order. -/
def valid_payloads {ε α : Type _} (rs : List (Validated ε α)) : List α :=
  rs.filterMap fun r =>
    match r with
    | .Valid x => some x
    | .Invalid _ => none

/-- Reading the error payloads out of the non-matching side of the
`is_valid` partition gives every `Invalid` payload in order. -/
theorem filter_invalid_payloads {ε α : Type _} (rs : List (Validated ε α)) :
    (rs.filter fun r => !Validated.is_valid r).filterMap
        (fun r => r.verify (fun _ => none) some) = invalid_payloads rs := by
  induction rs with
  | nil => rfl
  | cons r rest ih =>
      cases r <;>
        simp [List.filter_cons, invalid_payloads, List.filterMap_cons,
          Validated.is_valid, Validated.verify, const, ih, invalid_payloads] at *

/-- Reading the payloads out of the matching side of the `is_valid`
partition gives every `Valid` payload in order. -/
theorem filter_valid_payloads {ε α : Type _} (rs : List (Validated ε α)) :
    (rs.filter Validated.is_valid).filterMap
        (fun r => r.verify some (fun _ => none)) = valid_payloads rs := by
  induction rs with
  | nil => rfl
  | cons r rest ih =>
      cases r <;>
        simp [List.filter_cons, valid_payloads, List.filterMap_cons,
          Validated.is_valid, Validated.verify, const, ih, valid_payloads] at *

/-- `is_invalid` is the boolean complement of `is_valid`. -/
theorem Validated.is_invalid_eq {ε α : Type _} (r : Validated ε α) :
    r.is_invalid = !r.is_valid := by
  cases r <;> rfl

/-- The non-matching side of the partition is non-empty exactly when some
element is `Invalid`. -/
theorem filter_invalid_length_pos {ε α : Type _} (rs : List (Validated ε α)) :
    (rs.filter fun r => !Validated.is_valid r).length > 0 ↔
      rs.any Validated.is_invalid = true := by
  induction rs with
  | nil => simp
  | cons r rest ih =>
      cases hr : r.is_valid <;>
        simp [List.filter_cons, hr, Validated.is_invalid_eq, ih]

/-- C3: `Validated.collect` returns `Invalid` of all error payloads (in
order) as soon as one element is `Invalid`, and otherwise `Valid` of all
payloads (in order); in particular
`collect([Valid(1), Invalid(SpecError(2,None)), Valid(3), Invalid(SpecError(4,None))])`
yields `Invalid([SpecError(2,None), SpecError(4,None)])`. -/
theorem collect_partitions_errors_and_payloads :
    (∀ (ε α : Type) (rs : List (Validated ε α)),
      Validated.collect rs =
        if rs.any Validated.is_invalid then .Invalid (invalid_payloads rs)
        else .Valid (valid_payloads rs)) ∧
    Validated.collect
        ([.Valid (.int 1), .Invalid ⟨.int 2, none⟩,
          .Valid (.int 3), .Invalid ⟨.int 4, none⟩] :
          List (Validated SpecError Value))
      = .Invalid [⟨.int 2, none⟩, ⟨.int 4, none⟩] := by
  constructor
  · intro ε α rs
    show (if ((sep_by Validated.is_valid rs).2.length > 0) then _ else _) = _
    by_cases h : rs.any Validated.is_invalid = true
    · rw [if_pos, if_pos h]
      · exact congrArg Validated.Invalid (filter_invalid_payloads rs)
      · exact (filter_invalid_length_pos rs).mpr h
    · rw [if_neg, if_neg h]
      · exact congrArg Validated.Valid (filter_valid_payloads rs)
      · exact fun hc => h ((filter_invalid_length_pos rs).mp hc)
  · rfl

/-! ## Chain -/

/-- C2: `Chain.conform` threads the value left to right starting from
`Valid(value)`: an empty chain conforms to the input itself, and for
`Chain(s, rest...)` the conformed output of `s` is the input of the rest of
the chain, while an `Invalid` from `s` is returned unchanged (the remaining
stages are skipped by `then`).  The spec's example:
`Chain(Predicate(is_positive), Predicate(is_even)).conform(4)` yields
`Valid(4)` and `.conform(3)` yields `Invalid(SpecError(3, is_even_predicate))`. -/
theorem chain_conform_threads_and_short_circuits :
    (∀ v : Value, conform (.Chain []) v = .ok (.Valid v)) ∧
    (∀ (s : Spec) (rest : List Spec) (v : Value),
      conform (.Chain (s :: rest)) v =
        match conform s v with
        | .error e => .error e
        | .ok (.Valid x) => conform (.Chain rest) x
        | .ok (.Invalid e) => .ok (.Invalid e)) ∧
    conform chainEx (.int 4) = .ok (.Valid (.int 4)) ∧
    conform chainEx (.int 3) = .ok (.Invalid ⟨.int 3, some (.Predicate is_even)⟩) := by
  refine ⟨fun v => by simp [conform, chainGo], fun s rest v => ?_, ?_, ?_⟩
  · have h1 : conform (.Chain (s :: rest)) v =
        match conform s v with
        | .error e => .error e
        | .ok acc2 => chainGo rest acc2 := by
      simp [conform, chainGo, Validated.verify]
    rw [h1]
    cases h : conform s v with
    | error e => rfl
    | ok r =>
        cases r with
        | Valid x => simp [conform]
        | Invalid e => simp [chainGo_invalid]
  · simp [chainEx, conform, chainGo, Validated.verify, const, is_positive,
      is_even, Validated.is_valid]
  · simp [chainEx, conform, chainGo, Validated.verify, const, is_positive,
      is_even, Validated.is_valid]

/-! ## Alt -/

/-- If every branch conforms to an `Invalid`, the `Alt` loop falls through
to its `else` and reports the single top-level error referencing `self`. -/
theorem altGo_all_invalid (self : Spec) (v : Value) :
    ∀ ts : List (String × Spec),
      (∀ p ∈ ts, ∃ e : SpecError, conform p.2 v = .ok (.Invalid e)) →
      altGo self ts v = .ok (.Invalid ⟨v, some self⟩) := by
  intro ts
  induction ts with
  | nil => intro _; simp [altGo]
  | cons p rest ih =>
      intro h
      obtain ⟨tag, s⟩ := p
      obtain ⟨e, he⟩ := h (tag, s) (List.mem_cons_self _ _)
      simp only [altGo, he]
      simp only [Validated.map, Validated.verify, Validated.is_valid, const]
      exact ih fun q hq => h q (List.mem_cons_of_mem _ hq)

/-- The `Alt` loop returns the first branch whose `conform` is `Valid`,
mapped to the tagged pair, skipping an `Invalid`-conforming prefix. -/
theorem altGo_first_valid (self : Spec) (v : Value) :
    ∀ (pre : List (String × Spec)) (tag : String) (s : Spec)
      (post : List (String × Spec)) (x : Value),
      (∀ p ∈ pre, ∃ e : SpecError, conform p.2 v = .ok (.Invalid e)) →
      conform s v = .ok (.Valid x) →
      altGo self (pre ++ (tag, s) :: post) v
        = .ok (.Valid (.pair (.str tag) x)) := by
  intro pre
  induction pre with
  | nil =>
      intro tag s post x _ hs
      simp [altGo, hs, Validated.map, Validated.verify, Validated.is_valid, const]
  | cons p rest ih =>
      intro tag s post x h hs
      obtain ⟨ptag, ps⟩ := p
      obtain ⟨e, he⟩ := h (ptag, ps) (List.mem_cons_self _ _)
      simp only [List.cons_append, altGo, he]
      simp only [Validated.map, Validated.verify, Validated.is_valid, const]
      exact ih tag s post x (fun q hq => h q (List.mem_cons_of_mem _ hq)) hs

/-- C4: `Alt.conform` is first-match-wins: with an `Invalid`-conforming
prefix, the first branch whose `conform` is `Valid` has its result mapped to
the tagged pair `(tag, conformed_value)` and is returned; when every branch
conforms to an `Invalid`, the per-branch errors are discarded and the single
error `Invalid(SpecError(value, self))` referencing the `Alt` node itself is
returned.  The spec's example: `.conform("b")` yields `Valid(("b", "b"))`
and `.conform("c")` yields `Invalid(SpecError("c", alt_spec))`. -/
theorem alt_conform_first_match_wins :
    (∀ (ts : List (String × Spec)) (v : Value),
      (∀ p ∈ ts, ∃ e : SpecError, conform p.2 v = .ok (.Invalid e)) →
      conform (.Alt ts) v = .ok (.Invalid ⟨v, some (.Alt ts)⟩)) ∧
    (∀ (pre : List (String × Spec)) (tag : String) (s : Spec)
       (post : List (String × Spec)) (v x : Value),
      (∀ p ∈ pre, ∃ e : SpecError, conform p.2 v = .ok (.Invalid e)) →
      conform s v = .ok (.Valid x) →
      conform (.Alt (pre ++ (tag, s) :: post)) v
        = .ok (.Valid (.pair (.str tag) x))) ∧
    conform altEx (.str "b") = .ok (.Valid (.pair (.str "b") (.str "b"))) ∧
    conform altEx (.str "c") = .ok (.Invalid ⟨.str "c", some altEx⟩) := by
  refine ⟨?_, ?_, ?_, ?_⟩
  · intro ts v h
    simpa [conform] using altGo_all_invalid (.Alt ts) v ts h
  · intro pre tag s post v x h hs
    simpa [conform] using
      altGo_first_valid (.Alt (pre ++ (tag, s) :: post)) v pre tag s post x h hs
  · simp [altEx, conform, altGo, eq_a, eq_b, Value.beq, Validated.map,
      Validated.verify, Validated.is_valid, const]
  · simp [altEx, conform, altGo, eq_a, eq_b, Value.beq, Validated.map,
      Validated.verify, Validated.is_valid, const]

/-- Witness for C4: the first-match conjunct applied at the concrete input
of the spec's example. -/
theorem alt_conform_first_match_wins_witness :
    conform altEx (.str "b") = .ok (.Valid (.pair (.str "b") (.str "b"))) := by
  have h := alt_conform_first_match_wins.2.1 [("a", .Predicate eq_a)] "b"
      (.Predicate eq_b) [] (.str "b") (.str "b")
      (by
        intro p hp
        simp only [List.mem_singleton] at hp
        subst hp
        exact ⟨⟨.str "b", some (.Predicate eq_a)⟩,
          by simp [conform, eq_a, Value.beq]⟩)
      (by simp [conform, eq_b, Value.beq])
  simpa [altEx] using h

/-! ## Key -/

/-- C5: `Key.conform`: when the key is absent the result is
`Valid((key, default))`; when present, the field's value is conformed by the
child spec, a `Valid` result is wrapped as `Valid((key, conformed))` and an
`Invalid` result is propagated unchanged (so the error references the
field's spec, not the `Key` node).  The spec's example:
`Key("x", Predicate(is_int), default=0).conform({})` yields `Valid(("x", 0))`
and `.conform({"x": "s"})` yields `Invalid(SpecError("s", int_predicate))`. -/
theorem key_conform_default_and_propagation :
    (∀ (k : String) (s : Spec) (d : Value) (kvs : List (String × Value)),
      lookupKV kvs k = none →
      conform (.Key k s d) (.map kvs) = .ok (.Valid (.pair (.str k) d))) ∧
    (∀ (k : String) (s : Spec) (d : Value) (kvs : List (String × Value))
       (x y : Value),
      lookupKV kvs k = some x →
      conform s x = .ok (.Valid y) →
      conform (.Key k s d) (.map kvs) = .ok (.Valid (.pair (.str k) y))) ∧
    (∀ (k : String) (s : Spec) (d : Value) (kvs : List (String × Value))
       (x : Value) (e : SpecError),
      lookupKV kvs k = some x →
      conform s x = .ok (.Invalid e) →
      conform (.Key k s d) (.map kvs) = .ok (.Invalid e)) ∧
    conform keyEx (.map []) = .ok (.Valid (.pair (.str "x") (.int 0))) ∧
    conform keyEx (.map [("x", .str "s")])
      = .ok (.Invalid ⟨.str "s", some (.Predicate is_int)⟩) := by
  refine ⟨?_, ?_, ?_, ?_, ?_⟩
  · intro k s d kvs h
    simp [conform, Value.getItem, h]
  · intro k s d kvs x y h hs
    simp [conform, Value.getItem, h, hs, Validated.map, Validated.verify]
  · intro k s d kvs x e h hs
    simp [conform, Value.getItem, h, hs, Validated.map, Validated.verify]
  · simp [keyEx, conform, Value.getItem, lookupKV]
  · simp [keyEx, conform, Value.getItem, lookupKV, is_int, Validated.map,
      Validated.verify]

/-- Witness for C5: the absent-key conjunct applied at the concrete input of
the spec's example. -/
theorem key_conform_default_and_propagation_witness :
    conform keyEx (.map []) = .ok (.Valid (.pair (.str "x") (.int 0))) :=
  key_conform_default_and_propagation.1 "x" (.Predicate is_int) (.int 0) [] rfl

/-! ## Keys -/

/-- C6: `Keys.validate` succeeds on a mapping exactly when every required
key is present and, under `strict`, no key lies outside
`required ∪ optional`; `Keys.conform` returns the mapping unchanged when
`validate` holds and `Invalid(SpecError(value, self))` otherwise.  The
spec's example: `Keys(required={"x"}, optional={"y"}, strict=True)` accepts
`{"x":1}` and rejects `{"x":1,"z":2}` and `{"y":1}`. -/
theorem keys_validate_and_conform_characterisation :
    (∀ (req opt : List String) (strict : Bool) (kvs : List (String × Value)),
      validate (.Keys req opt strict) (.map kvs) = .ok true ↔
        (∀ k ∈ req, k ∈ kvs.map Prod.fst) ∧
        (strict = true → ∀ k ∈ kvs.map Prod.fst, k ∈ req ∨ k ∈ opt)) ∧
    (∀ (req opt : List String) (strict : Bool) (v : Value) (b : Bool),
      validate (.Keys req opt strict) v = .ok b →
      conform (.Keys req opt strict) v =
        .ok (if b then .Valid v
          else .Invalid ⟨v, some (.Keys req opt strict)⟩)) ∧
    validate keysEx (.map [("x", .int 1)]) = .ok true ∧
    validate keysEx (.map [("x", .int 1), ("z", .int 2)]) = .ok false ∧
    validate keysEx (.map [("y", .int 1)]) = .ok false := by
  refine ⟨?_, ?_, ?_, ?_, ?_⟩
  · intro req opt strict kvs
    cases strict <;>
      simp [validate, keysValidate, Value.keysOf, List.all_eq_true]
  · intro req opt strict v b h
    simp only [validate] at h
    simp [conform, h]
  · simp [keysEx, validate, keysValidate, Value.keysOf]
  · simp [keysEx, validate, keysValidate, Value.keysOf]
  · simp [keysEx, validate, keysValidate, Value.keysOf]

/-- Witness for C6: the `conform` conjunct applied at the concrete accepting
input of the spec's example. -/
theorem keys_validate_and_conform_characterisation_witness :
    conform keysEx (.map [("x", .int 1)])
      = .ok (.Valid (.map [("x", .int 1)])) := by
  have h := keys_validate_and_conform_characterisation.2.1 ["x"] ["y"] true
      (.map [("x", .int 1)]) true
      (by simp [validate, keysValidate, Value.keysOf])
  simpa [keysEx] using h

/-! ## Agreement of `validate` and `conform` -/

/-- `validate` and `conform` agree on a specification whenever both complete
without a fault. -/
def Agrees (s : Spec) : Prop :=
  ∀ (v : Value) (b : Bool) (r : Validated SpecError Value),
    validate s v = .ok b → conform s v = .ok r → b = r.is_valid

/-- The `in` test of a mapping succeeds exactly when subscription finds the
key. -/
theorem any_key_eq_lookup_isSome (kvs : List (String × Value)) (key : String) :
    (kvs.any fun kv => kv.1 == key) = (lookupKV kvs key).isSome := by
  induction kvs with
  | nil => rfl
  | cons kv rest ih =>
      obtain ⟨k, x⟩ := kv
      cases h : (k == key) <;> simp [lookupKV, h, ih]

set_option linter.unnecessarySeqFocus false in
/-- Every `Spec` has positive size. -/
theorem Spec.one_le_sizeOf (s : Spec) : 1 ≤ sizeOf s := by
  cases s <;> simp <;> omega

/-- If every branch's own `validate` agrees with its `conform`, then the
`any` of `Alt.validate` agrees with the first-match loop of `Alt.conform`
whenever both complete without a fault. -/
theorem anyGo_altGo_agree (self : Spec) (v : Value) :
    ∀ ts : List (String × Spec),
      (∀ p ∈ ts, Agrees p.2) →
      ∀ (b : Bool) (r : Validated SpecError Value),
        anyGo ts v = .ok b → altGo self ts v = .ok r → b = r.is_valid := by
  intro ts
  induction ts with
  | nil =>
      intro _ b r hv hc
      simp only [anyGo, Except.ok.injEq] at hv
      simp only [altGo, Except.ok.injEq] at hc
      subst hv
      subst hc
      rfl
  | cons p rest ih =>
      intro hmem b r hv hc
      obtain ⟨tag, s⟩ := p
      simp only [anyGo] at hv
      simp only [altGo] at hc
      cases hval : validate s v with
      | error e => rw [hval] at hv; exact absurd hv (by simp)
      | ok bc =>
          rw [hval] at hv
          cases hcon : conform s v with
          | error e => rw [hcon] at hc; exact absurd hc (by simp)
          | ok rc =>
              rw [hcon] at hc
              have hagree : bc = rc.is_valid :=
                hmem (tag, s) (List.mem_cons_self _ _) v bc rc hval hcon
              simp only [Validated.map_is_valid] at hc
              cases hbc : rc.is_valid with
              | true =>
                  rw [hagree, hbc] at hv
                  rw [hbc] at hc
                  simp only [if_true, Except.ok.injEq] at hv hc
                  subst hv
                  subst hc
                  rw [Validated.map_is_valid, hbc]
              | false =>
                  rw [hagree, hbc] at hv
                  rw [hbc] at hc
                  simp only [Bool.false_eq_true, if_false] at hv hc
                  exact ih (fun q hq => hmem q (List.mem_cons_of_mem _ hq)) b r hv hc

/-- Every specification agrees: proved by strong induction on the size of
the specification tree, the combinator cases using the agreement of their
children. -/
theorem agrees_of_sizeOf_le : ∀ (n : Nat) (s : Spec), sizeOf s ≤ n → Agrees s := by
  intro n
  induction n with
  | zero =>
      intro s hs
      have := Spec.one_le_sizeOf s
      omega
  | succ n ih =>
      intro s hs
      cases s with
      | Predicate p =>
          intro v b r hv hc
          simp only [validate, Except.ok.injEq] at hv
          simp only [conform, Except.ok.injEq] at hc
          subst hv
          subst hc
          cases h : p v <;> simp [h, Validated.is_valid, Validated.verify, const]
      | Member vs =>
          intro v b r hv hc
          simp only [validate, Except.ok.injEq] at hv
          simp only [conform, Except.ok.injEq] at hc
          subst hv
          subst hc
          cases h : vs.any fun m => m.beq v <;>
            simp [h, Validated.is_valid, Validated.verify, const]
      | Type' t =>
          intro v b r hv hc
          simp only [validate, Except.ok.injEq] at hv
          simp only [conform, Except.ok.injEq] at hc
          subst hv
          subst hc
          cases h : v.isInstance t <;>
            simp [h, Validated.is_valid, Validated.verify, const]
      | All specs =>
          intro v b r hv hc
          simp only [validate] at hv
          simp only [conform] at hc
          rw [hv] at hc
          simp only [Except.ok.injEq] at hc
          subst hc
          cases b <;> simp [Validated.is_valid, Validated.verify, const]
      | Chain specs =>
          intro v b r hv hc
          simp only [validate] at hv
          rw [hc] at hv
          simp only [Except.ok.injEq] at hv
          exact hv.symm
      | Alt ts =>
          intro v b r hv hc
          simp only [validate] at hv
          simp only [conform] at hc
          refine anyGo_altGo_agree (.Alt ts) v ts ?_ b r hv hc
          intro p hp
          obtain ⟨t, s2⟩ := p
          refine ih s2 ?_
          have h1 : sizeOf ((t, s2) : String × Spec) < sizeOf ts :=
            List.sizeOf_lt_of_mem hp
          simp only [Prod.mk.sizeOf_spec] at h1
          simp only [Spec.Alt.sizeOf_spec] at hs
          omega
      | Keys req opt strict =>
          intro v b r hv hc
          simp only [validate] at hv
          simp only [conform] at hc
          rw [hv] at hc
          simp only [Except.ok.injEq] at hc
          subst hc
          cases b <;> simp [Validated.is_valid, Validated.verify, const]
      | Key k s2 d =>
          intro v b r hv hc
          simp only [validate] at hv
          simp only [conform] at hc
          cases v with
          | int i => simp [Value.containsOp] at hv
          | bool bb => simp [Value.containsOp] at hv
          | str st => simp [Value.getItem] at hc
          | list xs => simp [Value.getItem] at hc
          | pair a c => simp [Value.getItem] at hc
          | map kvs =>
              cases hlk : lookupKV kvs k with
              | none =>
                  have hany : (kvs.any fun kv => kv.1 == k) = false := by
                    rw [any_key_eq_lookup_isSome, hlk]; rfl
                  simp [Value.containsOp, hany, Except.ok.injEq] at hv
                  simp [Value.getItem, hlk, Except.ok.injEq] at hc
                  subst hv
                  subst hc
                  rfl
              | some x =>
                  have hany : (kvs.any fun kv => kv.1 == k) = true := by
                    rw [any_key_eq_lookup_isSome, hlk]; rfl
                  simp only [Value.containsOp, hany, if_true] at hv
                  simp only [Value.getItem, hlk] at hv hc
                  cases hcs : conform s2 x with
                  | error e => rw [hcs] at hc; exact absurd hc (by simp)
                  | ok rc =>
                      rw [hcs] at hc
                      simp only [Except.ok.injEq] at hc
                      subst hc
                      rw [Validated.map_is_valid]
                      refine ih s2 ?_ x b rc hv hcs
                      simp only [Spec.Key.sizeOf_spec] at hs
                      have := Spec.one_le_sizeOf s2
                      omega

/-- C7: for every specification variant and every input value on which both
operations complete without a fault (the embedding of a value "accepted by
the variant's interface"), `validate` returns exactly
`conform(value).is_valid()`; the combinator cases thread the same
equivalence of their child specifications through the induction. -/
theorem validate_iff_conform_is_valid (s : Spec) (v : Value) (b : Bool)
    (r : Validated SpecError Value)
    (hval : validate s v = .ok b) (hcon : conform s v = .ok r) :
    b = r.is_valid :=
  agrees_of_sizeOf_le (sizeOf s) s (Nat.le_refl _) v b r hval hcon

/-- Witness for C7: applied to `Predicate(is_even)` at input `4`, where
`validate` returns `True` and `conform` returns `Valid(4)`. -/
theorem validate_iff_conform_is_valid_witness :
    true = (Validated.Valid (Value.int 4) : Validated SpecError Value).is_valid :=
  validate_iff_conform_is_valid (.Predicate is_even) (.int 4) true
    (.Valid (.int 4)) (by simp [validate, is_even]) (by simp [conform, is_even])

/-! ## Totality -/

/-- Counterexample to C8: `Keys.validate` and `Keys.conform` do not return a
result on every input value.  On the non-mapping input `5`, `value.keys()`
raises `AttributeError` — a fault reached without the explicit `throw`
operation. -/
theorem keys_validate_faults_on_non_mapping :
    validate (.Keys ["x"] [] true) (.int 5) = .error .attributeError ∧
    conform (.Keys ["x"] [] true) (.int 5) = .error .attributeError := by
  constructor <;> simp [validate, conform, keysValidate, Value.keysOf]

/-- C8 (amended): the Result operations and the predicate-based `conform`
and `validate` are pure total functions of their input, and `throw` is the
only operation that deliberately converts a representable failure into a
fault; `Keys.validate` and `Keys.conform` return a result for every
mapping-like input value, but fault on values that are not mapping-like
(the duck-typed `value.keys()` access). -/
theorem operations_total_on_interface_inputs :
    (∀ (req opt : List String) (strict : Bool) (kvs : List (String × Value)),
      ∃ b : Bool,
        validate (.Keys req opt strict) (.map kvs) = .ok b ∧
        conform (.Keys req opt strict) (.map kvs) =
          .ok (if b then .Valid (.map kvs)
            else .Invalid ⟨.map kvs, some (.Keys req opt strict)⟩)) ∧
    (∀ (p : Value → Bool) (v : Value),
      ∃ r : Validated SpecError Value, conform (.Predicate p) v = .ok r) ∧
    (∀ (ε φ α : Type) (e : ε) (f : ε → φ),
      Validated.throw' (Validated.Invalid e : Validated ε α) f = .error (f e)) := by
  refine ⟨?_, ?_, fun _ _ _ _ _ => rfl⟩
  · intro req opt strict kvs
    cases h : keysValidate req opt strict (.map kvs) with
    | error e => simp [keysValidate, Value.keysOf] at h
    | ok b =>
        refine ⟨b, ?_, ?_⟩
        · simp [validate, h]
        · simp [conform, h]
  · intro p v
    exact ⟨if p v then .Valid v else .Invalid ⟨v, some (.Predicate p)⟩,
      by simp [conform]⟩

end SpecPy
